import Mathlib

/-!
Shallow embedding of the transform-and-load ETL pipeline
(src/etl.py and src/run_analysis.py) and proofs about it.

Dataframes are modelled as Lists of typed row records, in row order.
pandas operations used by the pipeline are modelled as list combinators:
  - drop_duplicates(subset=[k])  -> dedupBy (keep first occurrence)
  - pd.merge(..., how="inner")   -> innerMerge
  - pd.merge(..., how="left")    -> leftMerge
  - groupby(k).agg(...)          -> group keys in first-occurrence order,
                                    aggregate over the rows of each group
Numeric float64 columns are modelled with exact rationals (Rat); integer
columns with Nat/Int; nullable cells with Option.
-/

namespace ETL

/-! ## Generic list combinators for the pandas operations -/

/-- Fuel-indexed helper for dedupBy: the fuel only serves to make the
recursion structural, it never runs out when it starts at the list length
(filtering only shrinks the list). -/
def dedupByF {α κ : Type} [DecidableEq κ] (k : α → κ) : Nat → List α → List α
  | _, [] => []
  | 0, _ :: _ => []
  | n + 1, x :: xs => x :: dedupByF k n (xs.filter (fun y => decide (¬ k y = k x)))

/-- pandas drop_duplicates with a key: keep the first row seen for each key. -/
def dedupBy {α κ : Type} [DecidableEq κ] (k : α → κ) (l : List α) : List α :=
  dedupByF k l.length l

/-- pandas inner merge on keys: one output row per matching pair,
left-row order outermost. -/
def innerMerge {α β κ : Type} [DecidableEq κ] (ka : α → κ) (kb : β → κ)
    (as : List α) (bs : List β) : List (α × β) :=
  as.flatMap (fun a => (bs.filter (fun b => decide (kb b = ka a))).map (fun b => (a, b)))

/-- pandas left merge on keys: every left row is kept; rows with no match
get a missing right side, rows with matches are repeated per match. -/
def leftMerge {α β κ : Type} [DecidableEq κ] (ka : α → κ) (kb : β → κ)
    (as : List α) (bs : List β) : List (α × Option β) :=
  as.flatMap (fun a =>
    match bs.filter (fun b => decide (kb b = ka a)) with
    | [] => [(a, none)]
    | ms => ms.map (fun b => (a, some b)))

/-! ## Column-name canonicalization (clean_column_names, etl.py lines 54-56)

`df.columns = [col.lower().strip().replace(' ', '_') for col in df.columns]`

Strings are modelled as lists of Unicode codepoints (Nat).  Python
str.lower is modelled on the ASCII range (65..90 map to 97..122);
str.strip removes the whitespace codepoints 32, 9, 10, 11, 12, 13 from
both ends; str.replace(' ', '_') maps codepoint 32 to 95. -/

def pyIsSpace (n : Nat) : Bool :=
  n = 32 || n = 9 || n = 10 || n = 11 || n = 12 || n = 13

def pyLowerChar (n : Nat) : Nat :=
  if 65 ≤ n ∧ n ≤ 90 then n + 32 else n

def pyLower (s : List Nat) : List Nat := s.map pyLowerChar

def pyStrip (s : List Nat) : List Nat :=
  ((s.dropWhile pyIsSpace).reverse.dropWhile pyIsSpace).reverse

def pyReplaceSpaceUnderscore (s : List Nat) : List Nat :=
  s.map (fun n => if n = 32 then 95 else n)

/-- Source: `col.lower().strip().replace(' ', '_')` -/
def cleanName (s : List Nat) : List Nat :=
  pyReplaceSpaceUnderscore (pyStrip (pyLower s))

/-- clean_column_names: canonicalize every column name of a dataframe. -/
def clean_column_names (cols : List (List Nat)) : List (List Nat) :=
  cols.map cleanName

/-! ## Row types of the normalized extracts

One structure per extract, with the columns of the corresponding CSV
(column names as in the source; `_pfx` abbreviates the source suffix
written out in etl.py).  Timestamp columns are opaque Option String
(pd.NaT -> none); float64 money columns are exact rationals. -/

structure CustomerRow where
  customer_id : String
  customer_unique_id : String
  customer_zip_code_pfx : String
  customer_city : String
  customer_state : String
deriving DecidableEq

structure OrderRow where
  order_id : String
  customer_id : String
  order_status : String
  order_purchase_timestamp : Option String
  order_approved_at : Option String
  order_delivered_carrier_date : Option String
  order_delivered_customer_date : Option String
  order_estimated_delivery_date : Option String
deriving DecidableEq

structure OrderItemRow where
  order_id : String
  order_item_id : Nat
  product_id : String
  seller_id : String
  shipping_limit_date : Option String
  price : Rat
  freight_value : Rat
deriving DecidableEq

structure PaymentRow where
  order_id : String
  payment_sequential : Nat
  payment_type : String
  payment_installments : Nat
  payment_value : Rat
deriving DecidableEq

structure ReviewRow where
  review_id : String
  order_id : String
  review_score : Nat
  review_creation_date : Option String
  review_answer_timestamp : Option String
deriving DecidableEq

structure ProductRow where
  product_id : String
  product_category_name : Option String
  product_name_lenght : Option Int
  product_description_lenght : Option Int
  product_photos_qty : Option Int
  product_weight_g : Option Int
  product_length_cm : Option Int
  product_height_cm : Option Int
  product_width_cm : Option Int
deriving DecidableEq

structure SellerRow where
  seller_id : String
  seller_zip_code_pfx : String
  seller_city : String
  seller_state : String
deriving DecidableEq

structure GeoRow where
  geolocation_zip_code_pfx : String
  geolocation_lat : Rat
  geolocation_lng : Rat
  geolocation_city : String
  geolocation_state : String
deriving DecidableEq

structure TransRow where
  product_category_name : Option String
  product_category_name_english : Option String
deriving DecidableEq

/-! ## Category Translator (etl.py lines 152-158)

`products_df = pd.merge(products, category_translation, on='product_category_name', how='left')`
`if 'product_category_name_english' in products_df.columns:`
`    products_df['product_category_name'] = products_df['product_category_name_english'].fillna(products_df['product_category_name'])`
`    products_df.drop(columns=['product_category_name_english'], inplace=True)`

`hasEnglishCol` embeds whether the translation extract contributes a
product_category_name_english column to the merged frame (pandas merge
carries over every non-key column of the right frame, so the column is
present exactly when the translation file has it). -/

def translateCategories (products : List ProductRow) (translation : List TransRow)
    (hasEnglishCol : Bool) : List ProductRow :=
  let merged := leftMerge (fun p => p.product_category_name)
    (fun t => t.product_category_name) products translation
  if hasEnglishCol then
    merged.map (fun pt =>
      ⟨pt.1.product_id,
       match pt.2.bind (fun t => t.product_category_name_english) with
       | some e => some e
       | none => pt.1.product_category_name,
       pt.1.product_name_lenght, pt.1.product_description_lenght, pt.1.product_photos_qty,
       pt.1.product_weight_g, pt.1.product_length_cm, pt.1.product_height_cm,
       pt.1.product_width_cm⟩)
  else
    merged.map (fun pt => pt.1)

/-! ## Dimension Builder (etl.py lines 160-194) -/

structure DimCustomerRow where
  customer_unique_id : String
  customer_zip_code_pfx : String
  customer_city : String
  customer_state : String
deriving DecidableEq

def projCustomer (c : CustomerRow) : DimCustomerRow :=
  ⟨c.customer_unique_id, c.customer_zip_code_pfx, c.customer_city, c.customer_state⟩

/-- Source: `all_data['customers'][[...]].drop_duplicates()` — note: no subset, the
deduplication key is the whole projected row. -/
def dim_customers (customers : List CustomerRow) : List DimCustomerRow :=
  dedupBy id (customers.map projCustomer)

structure DimProductRowPre where
  product_id : String
  product_category_name : Option String
  product_weight_g : Option Int
  product_length_cm : Option Int
  product_height_cm : Option Int
  product_width_cm : Option Int
deriving DecidableEq

structure DimProductRow where
  product_id : String
  product_category_name : Option String
  product_weight_g : Int
  product_length_cm : Int
  product_height_cm : Int
  product_width_cm : Int
deriving DecidableEq

def projProduct (p : ProductRow) : DimProductRowPre :=
  ⟨p.product_id, p.product_category_name, p.product_weight_g, p.product_length_cm,
   p.product_height_cm, p.product_width_cm⟩

/-- Source: `fillna(0)` then `astype(int)` on the four physical-dimension columns. -/
def fillProduct (p : DimProductRowPre) : DimProductRow :=
  ⟨p.product_id, p.product_category_name, p.product_weight_g.getD 0,
   p.product_length_cm.getD 0, p.product_height_cm.getD 0, p.product_width_cm.getD 0⟩

/-- Source: `drop_duplicates(subset=['product_id'])`, then fill-and-cast (the fill
happens after deduplication in the source). Input is the translated
products frame. -/
def dim_products (products : List ProductRow) : List DimProductRow :=
  (dedupBy (fun r => r.product_id) (products.map projProduct)).map fillProduct

/-- Source: `all_data['sellers'][[...]].drop_duplicates()` — the projection keeps all
four columns of the sellers extract, so it is the identity here; again no
subset, whole-row deduplication. -/
def dim_sellers (sellers : List SellerRow) : List SellerRow :=
  dedupBy id sellers

structure DimGeoRow where
  geolocation_zip_code_pfx : String
  geolocation_lat : Rat
  geolocation_lng : Rat
deriving DecidableEq

def projGeo (g : GeoRow) : DimGeoRow :=
  ⟨g.geolocation_zip_code_pfx, g.geolocation_lat, g.geolocation_lng⟩

/-- Source: `drop_duplicates(subset=['geolocation_zip_code_prefix'])` after
projecting to zip, lat, lng. -/
def dim_geolocation (geo : List GeoRow) : List DimGeoRow :=
  dedupBy (fun r => r.geolocation_zip_code_pfx) (geo.map projGeo)

/-- Source: `drop_duplicates(subset=['order_id'])`; the projected column set is all
eight columns of the orders extract, so the projection is the identity. -/
def dim_orders (orders : List OrderRow) : List OrderRow :=
  dedupBy (fun r => r.order_id) orders

/-! ## Payment and review aggregation (etl.py lines 198-203) -/

def countOcc {κ : Type} [DecidableEq κ] (l : List κ) (v : κ) : Nat :=
  (l.filter (fun x => decide (x = v))).length

def maxCount {κ : Type} [DecidableEq κ] (l : List κ) : Nat :=
  (l.map (countOcc l)).foldr max 0

/-- Lexicographic comparison of character lists by codepoint — the string
order Python and pandas use when sorting the mode candidates. -/
def charListLeB : List Char → List Char → Bool
  | [], _ => true
  | _ :: _, [] => false
  | a :: as2, b :: bs2 =>
    if a.toNat < b.toNat then true
    else if b.toNat < a.toNat then false
    else charListLeB as2 bs2

def strLeB (a b : String) : Bool := charListLeB a.data b.data

/-- Source: `x.mode()[0]` on a pandas Series: pandas returns the set of values
attaining the maximal frequency sorted ascending, so element 0 is the
least such value (the fold below computes the least candidate).  Empty
series: no mode (the source guards with `if not x.empty else None`). -/
def seriesModeHead (l : List String) : Option String :=
  ((dedupBy id l).filter (fun v => decide (countOcc l v = maxCount l))).foldr
    (fun a acc =>
      match acc with
      | none => some a
      | some b => some (if strLeB a b then a else b)) none

/-- Modelled from the spec: the mode statistic with ties broken by the
first value encountered in input order among the most frequent (the
spec's stated tie-break for payment_type). Used only to compare the
spec's wording against the source's seriesModeHead. -/
def modeFirstEncountered {κ : Type} [DecidableEq κ] (l : List κ) : Option κ :=
  l.find? (fun v => decide (countOcc l v = maxCount l))

structure PayAggRow where
  order_id : String
  payment_value : Rat
  payment_installments : Nat
  payment_type : Option String
deriving DecidableEq

/-- Source: `payments.groupby('order_id').agg(payment_value=('payment_value','sum'),
payment_installments=('payment_installments','max'),
payment_type=('payment_type', lambda x: x.mode()[0] if not x.empty else None)).reset_index()`.
Groups are listed in first-occurrence order of the key (pandas emits them
sorted by key; every property proved below is independent of group order,
rows are only accessed by key and counted). -/
def payments_agg (payments : List PaymentRow) : List PayAggRow :=
  (dedupBy id (payments.map (fun p => p.order_id))).map (fun oid =>
    let grp := payments.filter (fun p => decide (p.order_id = oid))
    ⟨oid,
     (grp.map (fun p => p.payment_value)).sum,
     (grp.map (fun p => p.payment_installments)).foldr max 0,
     seriesModeHead (grp.map (fun p => p.payment_type))⟩)

structure RevAggRow where
  order_id : String
  review_score : Rat
deriving DecidableEq

/-- Source: `reviews.groupby('order_id').agg(review_score=('review_score','mean')).reset_index()` -/
def reviews_agg (reviews : List ReviewRow) : List RevAggRow :=
  (dedupBy id (reviews.map (fun r => r.order_id))).map (fun oid =>
    let grp := reviews.filter (fun r => decide (r.order_id = oid))
    ⟨oid, ((grp.map (fun r => (r.review_score : Rat))).sum) / (grp.length : Rat)⟩)

/-! ## Fact Assembler (etl.py lines 196-217) -/

/-- Steps 1-2: `pd.merge(pd.merge(orders, customers, on='customer_id'), order_items, on='order_id')`
(both inner merges). -/
def factBase (orders : List OrderRow) (customers : List CustomerRow)
    (order_items : List OrderItemRow) : List ((OrderRow × CustomerRow) × OrderItemRow) :=
  innerMerge (fun oc => oc.1.order_id) (fun i => i.order_id)
    (innerMerge (fun o => o.customer_id) (fun c => c.customer_id) orders customers)
    order_items

structure FactRow where
  order_id : String
  order_item_id : Nat
  product_id : String
  seller_id : String
  customer_unique_id : String
  order_purchase_timestamp : Option String
  price : Rat
  freight_value : Rat
  payment_value : Rat
  payment_installments : Nat
  payment_type : Option String
  review_score : Int
deriving DecidableEq

/-- pandas `astype(int)` truncation toward zero, on an exact rational. -/
def ratTruncToInt (q : Rat) : Int := q.num.tdiv (q.den : Int)

/-- Column projection and null-fill (etl.py lines 205-216): fillna(0) on
review_score, payment_value and payment_installments; payment_type is not
filled; payment_installments and review_score cast to integer. -/
def projectFact
    (x : (((OrderRow × CustomerRow) × OrderItemRow) × Option PayAggRow) × Option RevAggRow) :
    FactRow :=
  let o := x.1.1.1.1
  let c := x.1.1.1.2
  let it := x.1.1.2
  let pay := x.1.2
  let rev := x.2
  ⟨o.order_id, it.order_item_id, it.product_id, it.seller_id, c.customer_unique_id,
   o.order_purchase_timestamp, it.price, it.freight_value,
   (pay.map (fun a => a.payment_value)).getD 0,
   (pay.map (fun a => a.payment_installments)).getD 0,
   pay.bind (fun a => a.payment_type),
   ratTruncToInt ((rev.map (fun a => a.review_score)).getD 0)⟩

/-- The full fact assembly: inner joins, left join of the payment
aggregate, left join of the review aggregate, projection and null-fill. -/
def fact_order_items (orders : List OrderRow) (customers : List CustomerRow)
    (order_items : List OrderItemRow) (payments : List PaymentRow)
    (reviews : List ReviewRow) : List FactRow :=
  let base := factBase orders customers order_items
  let withPay := leftMerge (fun r => r.1.1.order_id) (fun a => a.order_id)
    base (payments_agg payments)
  let withRev := leftMerge (fun r => r.1.1.1.order_id) (fun a => a.order_id)
    withPay (reviews_agg reviews)
  withRev.map projectFact

/-! ## Bulk Loader (load_to_db, etl.py lines 85-136)

The I/O steps are abstracted to their success/failure outcome; the model
keeps the control flow of the try/except/finally exactly: the first
failing step jumps to the except branch (rollback, return False); the
finally branch removes the local file if it exists. -/

inductive StepResult where
  | ok : StepResult
  | err : StepResult
deriving DecidableEq

structure LoadEnv where
  toCsvStep : StepResult
  uploadStep : StepResult
  truncateStep : StepResult
  copyStep : StepResult
  commitStep : StepResult
deriving DecidableEq

inductive TxOutcome where
  | committed : TxOutcome
  | rolledBack : TxOutcome
deriving DecidableEq

structure LoadResult where
  success : Bool
  tx : TxOutcome
  localFileRemains : Bool
deriving DecidableEq

/-- The try/except part: returns (returned-value, local-file-exists,
transaction outcome) before the finally clause runs.  The local file
exists once df.to_csv succeeded. -/
def loadAttempt (env : LoadEnv) : Bool × Bool × TxOutcome :=
  match env.toCsvStep with
  | StepResult.err => (false, false, TxOutcome.rolledBack)
  | StepResult.ok =>
    match env.uploadStep with
    | StepResult.err => (false, true, TxOutcome.rolledBack)
    | StepResult.ok =>
      match env.truncateStep with
      | StepResult.err => (false, true, TxOutcome.rolledBack)
      | StepResult.ok =>
        match env.copyStep with
        | StepResult.err => (false, true, TxOutcome.rolledBack)
        | StepResult.ok =>
          match env.commitStep with
          | StepResult.err => (false, true, TxOutcome.rolledBack)
          | StepResult.ok => (true, true, TxOutcome.committed)

/-- load_to_db: the attempt followed by the finally clause
`if os.path.exists(local_path): os.remove(local_path)`. -/
def load_to_db (env : LoadEnv) : LoadResult :=
  let a := loadAttempt env
  ⟨a.1, a.2.2, if a.2.1 = true then false else a.2.1⟩

/-! ## Orchestrator load order (etl.py lines 229-243)

The insertion order of the `tables_to_load` dict (Python dicts iterate in
insertion order), which is the order the per-table loads run in. -/

def tables_to_load : List String :=
  ["dim_customers", "dim_products", "dim_sellers", "dim_geolocation",
   "fact_order_items", "dim_orders"]

/-! ## Configuration check (run_analysis.py lines 37-42)

`credentials = {}` followed by `if not all(credentials): log error; return`.
The dict literal is empty whatever the environment holds, and Python's
`all` over an empty iterable is True. -/

inductive AnalysisOutcome where
  | haltedBeforeConnect : AnalysisOutcome
  | attemptsConnection : AnalysisOutcome
deriving DecidableEq

structure DbConfig where
  db_user : Option String
  db_password : Option String
  db_host : Option String
  db_port : Option String
  db_name : Option String
deriving DecidableEq

/-- The `credentials` dict of run_analysis: the literal `{}` — its contents
do not depend on the configuration. -/
def credentialsDict (_cfg : DbConfig) : List String := []

/-- Python `all(d)` over a dict iterates its keys and tests their
truthiness (a string is truthy iff non-empty). -/
def pyAllKeysTruthy (keys : List String) : Bool :=
  keys.all (fun k => decide (¬ k = ""))

/-- The guard of run_analysis: halt before connecting iff
`not all(credentials)` is true. -/
def run_analysis_config_check (cfg : DbConfig) : AnalysisOutcome :=
  if pyAllKeysTruthy (credentialsDict cfg) = false then
    AnalysisOutcome.haltedBeforeConnect
  else
    AnalysisOutcome.attemptsConnection

/-! ## Concrete sample extracts used in counterexamples and witnesses -/

def exPayTie : List PaymentRow :=
  [⟨"o1", 1, "voucher", 1, 10⟩,
   ⟨"o1", 2, "credit_card", 2, 5⟩]

def exOrdersDup : List OrderRow :=
  [⟨"o1", "c1", "delivered", none, none, none, none, none⟩,
   ⟨"o1", "c9", "canceled", none, none, none, none, none⟩,
   ⟨"o2", "c2", "shipped", none, none, none, none, none⟩]

def exCustomersDup : List CustomerRow :=
  [⟨"c1", "u1", "11111", "sao paulo", "SP"⟩,
   ⟨"c2", "u1", "22222", "rio de janeiro", "RJ"⟩]

def exProductsOne : List ProductRow :=
  [⟨"p1", some "cat", none, none, none, none, none, none, none⟩]

def exTransDup : List TransRow :=
  [⟨some "cat", some "house"⟩, ⟨some "cat", some "home"⟩]

def exProductsTwo : List ProductRow :=
  [⟨"p1", some "moveis_decoracao", none, none, none, none, none, none, none⟩,
   ⟨"p2", some "sem_traducao", none, none, none, none, none, none, none⟩]

def exTransOne : List TransRow :=
  [⟨some "moveis_decoracao", some "furniture_decor"⟩]

def exOrdersW : List OrderRow :=
  [⟨"o1", "c1", "delivered", some "t1", none, none, none, none⟩]

def exCustomersW : List CustomerRow :=
  [⟨"c1", "u1", "11111", "sao paulo", "SP"⟩]

def exItemsW : List OrderItemRow :=
  [⟨"o1", 1, "p1", "s1", none, 10, 2⟩]

/-! ### Lemmas about cleanName -/

theorem map_fix {α : Type} (f : α → α) (l : List α) (h : ∀ x ∈ l, f x = x) :
    l.map f = l :=
  (List.map_congr_left h).trans (List.map_id l)

theorem pyLowerChar_idem (n : Nat) : pyLowerChar (pyLowerChar n) = pyLowerChar n := by
  simp only [pyLowerChar]
  split_ifs <;> omega

theorem mem_of_mem_pyStrip {m : Nat} {l : List Nat} (h : m ∈ pyStrip l) : m ∈ l := by
  unfold pyStrip at h
  rw [List.mem_reverse] at h
  have h2 := (List.dropWhile_sublist pyIsSpace).subset h
  rw [List.mem_reverse] at h2
  exact (List.dropWhile_sublist pyIsSpace).subset h2

theorem head?_dropWhile_false {p : Nat → Bool} {l : List Nat} :
    ∀ n ∈ (l.dropWhile p).head?, p n = false := by
  induction l with
  | nil => intro n h; simp at h
  | cons x xs ih =>
    intro n h
    rw [List.dropWhile_cons] at h
    by_cases hx : p x = true
    · rw [if_pos hx] at h
      exact ih n h
    · rw [if_neg hx] at h
      simp only [List.head?, Option.mem_def, Option.some.injEq] at h
      subst h
      exact Bool.eq_false_iff.mpr hx

theorem getLast?_of_suffix {α : Type} {l₁ l₂ : List α} (h : l₁ <:+ l₂)
    (hne : l₁ ≠ []) : l₁.getLast? = l₂.getLast? := by
  obtain ⟨t, rfl⟩ := h
  rw [List.getLast?_append]
  cases hl : l₁.getLast? with
  | none => exact absurd (List.getLast?_eq_none_iff.mp hl) hne
  | some a => rfl

theorem getLast?_dropWhile_false {p : Nat → Bool} {l : List Nat}
    (hl : ∀ n ∈ l.getLast?, p n = false) :
    ∀ n ∈ (l.dropWhile p).getLast?, p n = false := by
  intro n h
  cases hd : l.dropWhile p with
  | nil => rw [hd] at h; simp at h
  | cons y ys =>
    have hsuf := List.dropWhile_suffix (l := l) p
    rw [hd] at hsuf h
    have : (y :: ys).getLast? = l.getLast? := getLast?_of_suffix hsuf (by simp)
    exact hl n (this ▸ h)

theorem pyStrip_head {l : List Nat} :
    ∀ n ∈ (pyStrip l).head?, pyIsSpace n = false := by
  intro n h
  unfold pyStrip at h
  rw [List.head?_reverse] at h
  have hinner : ∀ m ∈ ((l.dropWhile pyIsSpace).reverse).getLast?, pyIsSpace m = false := by
    intro m hm
    rw [List.getLast?_reverse] at hm
    exact head?_dropWhile_false m hm
  exact getLast?_dropWhile_false hinner n h

theorem pyStrip_getLast {l : List Nat} :
    ∀ n ∈ (pyStrip l).getLast?, pyIsSpace n = false := by
  intro n h
  unfold pyStrip at h
  rw [List.getLast?_reverse] at h
  exact head?_dropWhile_false n h

theorem pyStrip_eq_self {l : List Nat}
    (h1 : ∀ n ∈ l.head?, pyIsSpace n = false)
    (h2 : ∀ n ∈ l.getLast?, pyIsSpace n = false) :
    pyStrip l = l := by
  unfold pyStrip
  have hdrop1 : l.dropWhile pyIsSpace = l := by
    cases l with
    | nil => rfl
    | cons x xs =>
      rw [List.dropWhile_cons, if_neg]
      simp only [List.head?, Option.mem_def, Option.some.injEq, forall_eq'] at h1
      simp [h1]
  rw [hdrop1]
  have hdrop2 : l.reverse.dropWhile pyIsSpace = l.reverse := by
    cases hr : l.reverse with
    | nil => rfl
    | cons x xs =>
      rw [List.dropWhile_cons, if_neg]
      have hx : l.getLast? = some x := by
        rw [List.getLast?_eq_head?_reverse, hr]; rfl
      have := h2 x (by rw [hx]; rfl)
      simp [this]
  rw [hdrop2, List.reverse_reverse]

/-- Every codepoint in the output of cleanName is either an underscore or
the lower-casing of some input codepoint. -/
theorem mem_cleanName {m : Nat} {s : List Nat} (h : m ∈ cleanName s) :
    m = 95 ∨ ∃ n, m = pyLowerChar n := by
  unfold cleanName pyReplaceSpaceUnderscore at h
  rw [List.mem_map] at h
  obtain ⟨a, ha, rfl⟩ := h
  by_cases h32 : a = 32
  · left; rw [if_pos h32]
  · right
    have ha2 : a ∈ pyLower s := mem_of_mem_pyStrip ha
    unfold pyLower at ha2
    rw [List.mem_map] at ha2
    obtain ⟨n, _, rfl⟩ := ha2
    exact ⟨n, by rw [if_neg h32]⟩

theorem cleanName_no_space {m : Nat} {s : List Nat} (h : m ∈ cleanName s) :
    m ≠ 32 := by
  unfold cleanName pyReplaceSpaceUnderscore at h
  rw [List.mem_map] at h
  obtain ⟨a, _, rfl⟩ := h
  by_cases h32 : a = 32
  · rw [if_pos h32]; omega
  · rw [if_neg h32]; exact h32

theorem pyLower_cleanName (s : List Nat) : pyLower (cleanName s) = cleanName s := by
  apply map_fix
  intro m hm
  rcases mem_cleanName hm with h95 | ⟨n, rfl⟩
  · subst h95; rfl
  · exact pyLowerChar_idem n

theorem noSpace_of_ne_32_of_lower {n : Nat} (h : pyIsSpace n = false) :
    pyIsSpace (if n = 32 then 95 else n) = false := by
  by_cases h32 : n = 32
  · subst h32; rfl
  · rw [if_neg h32]; exact h

theorem pyStrip_cleanName (s : List Nat) : pyStrip (cleanName s) = cleanName s := by
  apply pyStrip_eq_self
  · intro n hn
    unfold cleanName pyReplaceSpaceUnderscore at hn
    rw [List.head?_map] at hn
    rw [Option.mem_def, Option.map_eq_some'] at hn
    obtain ⟨a, ha, rfl⟩ := hn
    exact noSpace_of_ne_32_of_lower (pyStrip_head a (Option.mem_def.mpr ha))
  · intro n hn
    unfold cleanName pyReplaceSpaceUnderscore at hn
    rw [List.getLast?_map] at hn
    rw [Option.mem_def, Option.map_eq_some'] at hn
    obtain ⟨a, ha, rfl⟩ := hn
    exact noSpace_of_ne_32_of_lower (pyStrip_getLast a (Option.mem_def.mpr ha))

theorem pyReplace_cleanName (s : List Nat) :
    pyReplaceSpaceUnderscore (cleanName s) = cleanName s := by
  apply map_fix
  intro m hm
  rw [if_neg (cleanName_no_space hm)]

theorem cleanName_idem (s : List Nat) : cleanName (cleanName s) = cleanName s := by
  show pyReplaceSpaceUnderscore (pyStrip (pyLower (cleanName s))) = cleanName s
  rw [pyLower_cleanName, pyStrip_cleanName, pyReplace_cleanName]

/-! ### Lemmas about dedupBy -/

theorem dedupByF_fuel {α κ : Type} [DecidableEq κ] (k : α → κ) :
    ∀ (n m : Nat) (l : List α), l.length ≤ n → l.length ≤ m →
      dedupByF k n l = dedupByF k m l := by
  intro n
  induction n with
  | zero =>
    intro m l hn _
    cases l with
    | nil => cases m <;> rfl
    | cons x xs => simp at hn
  | succ n ih =>
    intro m l hn hm
    cases l with
    | nil => cases m <;> rfl
    | cons x xs =>
      cases m with
      | zero => simp at hm
      | succ m =>
        simp only [dedupByF]
        congr 1
        have hf := List.length_filter_le (fun y => decide (¬ k y = k x)) xs
        simp only [List.length_cons] at hn hm
        exact ih m _ (by omega) (by omega)

theorem dedupBy_nil {α κ : Type} [DecidableEq κ] (k : α → κ) :
    dedupBy k ([] : List α) = [] := rfl

theorem dedupBy_cons {α κ : Type} [DecidableEq κ] (k : α → κ) (x : α) (xs : List α) :
    dedupBy k (x :: xs) = x :: dedupBy k (xs.filter (fun y => decide (¬ k y = k x))) := by
  show dedupByF k (x :: xs).length (x :: xs) = _
  simp only [List.length_cons, dedupByF]
  congr 1
  exact dedupByF_fuel k xs.length _ _ (List.length_filter_le _ _) (Nat.le_refl _)

theorem dedupBy_induction {α κ : Type} [DecidableEq κ] (k : α → κ) {motive : List α → Prop}
    (h0 : motive [])
    (h1 : ∀ x xs, motive (xs.filter (fun y => decide (¬ k y = k x))) → motive (x :: xs))
    (l : List α) : motive l := by
  suffices h : ∀ (n : Nat) (l2 : List α), l2.length ≤ n → motive l2 from
    h l.length l (Nat.le_refl _)
  intro n
  induction n with
  | zero =>
    intro l2 hl
    cases l2 with
    | nil => exact h0
    | cons x xs => simp at hl
  | succ n ih =>
    intro l2 hl
    cases l2 with
    | nil => exact h0
    | cons x xs =>
      apply h1
      apply ih
      have h2 := List.length_filter_le (fun y => decide (¬ k y = k x)) xs
      simp only [List.length_cons] at hl
      omega

theorem dedupBy_subset {α κ : Type} [DecidableEq κ] (k : α → κ) (l : List α) :
    ∀ x ∈ dedupBy k l, x ∈ l := by
  induction l using dedupBy_induction (k := k) with
  | h0 => intro x hx; simp [dedupBy_nil] at hx
  | h1 y ys ih =>
    intro x hx
    rw [dedupBy_cons] at hx
    rcases List.mem_cons.mp hx with rfl | hx2
    · exact List.mem_cons_self _ _
    · exact List.mem_cons_of_mem _ ((List.filter_sublist _).subset (ih x hx2))

theorem dedupBy_keys_nodup {α κ : Type} [DecidableEq κ] (k : α → κ) (l : List α) :
    ((dedupBy k l).map k).Nodup := by
  induction l using dedupBy_induction (k := k) with
  | h0 => simp [dedupBy_nil]
  | h1 x xs ih =>
    rw [dedupBy_cons, List.map_cons]
    refine List.Nodup.cons ?_ ih
    intro hmem
    rw [List.mem_map] at hmem
    obtain ⟨z, hz, hkz⟩ := hmem
    have hz2 := dedupBy_subset _ _ z hz
    rw [List.mem_filter] at hz2
    have hne := hz2.2
    simp only [decide_eq_true_eq] at hne
    exact hne hkz

theorem find?_filter_of_imp {α : Type} {p q : α → Bool} (l : List α)
    (h : ∀ y, p y = true → q y = true) :
    (l.filter q).find? p = l.find? p := by
  induction l with
  | nil => rfl
  | cons a l ih =>
    rw [List.filter_cons]
    by_cases hq : q a = true
    · rw [if_pos hq, List.find?_cons, List.find?_cons]
      cases hp : p a
      · simp only [hp]; exact ih
      · simp only [hp]
    · rw [if_neg hq, List.find?_cons]
      cases hp : p a
      · simp only [hp]; exact ih
      · exact absurd (h a hp) hq

theorem dedupBy_first_seen {α κ : Type} [DecidableEq κ] (k : α → κ) (l : List α) :
    ∀ x ∈ dedupBy k l, l.find? (fun y => decide (k y = k x)) = some x := by
  induction l using dedupBy_induction (k := k) with
  | h0 => intro x hx; simp [dedupBy_nil] at hx
  | h1 a xs ih =>
    intro x hx
    rw [dedupBy_cons] at hx
    rcases List.mem_cons.mp hx with rfl | hx2
    · simp [List.find?_cons]
    · have hxf : x ∈ xs.filter (fun y => decide (¬ k y = k a)) := dedupBy_subset _ _ x hx2
      have hkx : ¬ (k x = k a) := by
        have := (List.mem_filter.mp hxf).2
        simpa using this
      rw [List.find?_cons]
      have hpa : (decide (k a = k x)) = false := by
        simp only [decide_eq_false_iff_not]
        exact fun hh => hkx hh.symm
      simp only [hpa]
      have hfin := ih x hx2
      rw [find?_filter_of_imp] at hfin
      · exact hfin
      · intro y hy
        simp only [decide_eq_true_eq] at hy ⊢
        intro hya
        exact hkx (hy ▸ hya)

theorem mem_dedupBy_of_key {α κ : Type} [DecidableEq κ] (k : α → κ) (l : List α) :
    ∀ y ∈ l, ∃ x ∈ dedupBy k l, k x = k y := by
  induction l using dedupBy_induction (k := k) with
  | h0 => intro y hy; simp at hy
  | h1 a xs ih =>
    intro y hy
    rcases List.mem_cons.mp hy with rfl | hy2
    · exact ⟨_, by rw [dedupBy_cons]; exact List.mem_cons_self _ _, rfl⟩
    · by_cases hk : k y = k a
      · exact ⟨a, by rw [dedupBy_cons]; exact List.mem_cons_self _ _, hk.symm⟩
      · have hyf : y ∈ xs.filter (fun z => decide (¬ k z = k a)) := by
          rw [List.mem_filter]
          exact ⟨hy2, by simpa using hk⟩
        obtain ⟨x, hx, hkx⟩ := ih y hyf
        exact ⟨x, by rw [dedupBy_cons]; exact List.mem_cons_of_mem _ hx, hkx⟩

theorem mem_dedupBy_id {κ : Type} [DecidableEq κ] (l : List κ) (a : κ) (h : a ∈ l) :
    a ∈ dedupBy id l := by
  obtain ⟨x, hx, hkx⟩ := mem_dedupBy_of_key id l a h
  have hxa : x = a := hkx
  exact hxa ▸ hx

theorem find?_eq_self_of_mem {κ : Type} [DecidableEq κ] (l : List κ) (a : κ) (h : a ∈ l) :
    l.find? (fun x => decide (x = a)) = some a := by
  induction l with
  | nil => simp at h
  | cons b l ih =>
    rw [List.find?_cons]
    by_cases hb : b = a
    · subst hb
      simp
    · have hd : (decide (b = a)) = false := by simpa using hb
      simp only [hd]
      refine ih ?_
      rcases List.mem_cons.mp h with rfl | h2
      · exact absurd rfl hb
      · exact h2

/-! ### Lemmas about leftMerge -/

theorem flatMap_eq_map {α β : Type} (g : α → List β) (f : α → β) (as : List α)
    (h : ∀ a, g a = [f a]) : as.flatMap g = as.map f := by
  induction as with
  | nil => rfl
  | cons a as ih =>
    rw [List.flatMap_cons, h a, List.map_cons, ih]
    rfl

theorem filter_key_of_nodup {β κ : Type} [DecidableEq κ] (kb : β → κ) (bs : List β)
    (h : (bs.map kb).Nodup) (key : κ) :
    bs.filter (fun b => decide (kb b = key))
      = (bs.find? (fun b => decide (kb b = key))).toList := by
  induction bs with
  | nil => rfl
  | cons b bs ih =>
    rw [List.map_cons, List.nodup_cons] at h
    rw [List.filter_cons, List.find?_cons]
    by_cases hb : kb b = key
    · have hd : decide (kb b = key) = true := by simpa using hb
      simp only [hd, if_true]
      have hnil : bs.filter (fun b2 => decide (kb b2 = key)) = [] := by
        rw [List.filter_eq_nil_iff]
        intro a ha
        simp only [decide_eq_true_eq]
        intro hka
        exact h.1 (by rw [List.mem_map]; exact ⟨a, ha, by rw [hka, hb]⟩)
      rw [hnil]
      rfl
    · have hd : decide (kb b = key) = false := by simpa using hb
      simp only [hd, if_false]
      exact ih h.2

theorem leftMerge_eq_map_of_nodup {α β κ : Type} [DecidableEq κ] (ka : α → κ) (kb : β → κ)
    (as : List α) (bs : List β) (h : (bs.map kb).Nodup) :
    leftMerge ka kb as bs =
      as.map (fun a => (a, bs.find? (fun b => decide (kb b = ka a)))) := by
  unfold leftMerge
  apply flatMap_eq_map
  intro a
  rw [filter_key_of_nodup kb bs h (ka a)]
  cases hf : bs.find? (fun b => decide (kb b = ka a)) with
  | none => rfl
  | some b => rfl

theorem leftMerge_length_of_nodup {α β κ : Type} [DecidableEq κ] (ka : α → κ) (kb : β → κ)
    (as : List α) (bs : List β) (h : (bs.map kb).Nodup) :
    (leftMerge ka kb as bs).length = as.length := by
  rw [leftMerge_eq_map_of_nodup ka kb as bs h, List.length_map]

theorem mem_leftMerge {α β κ : Type} [DecidableEq κ] {ka : α → κ} {kb : β → κ}
    {as : List α} {bs : List β} {x : α × Option β} (hx : x ∈ leftMerge ka kb as bs) :
    x.1 ∈ as ∧ ∀ b, x.2 = some b → b ∈ bs ∧ kb b = ka x.1 := by
  unfold leftMerge at hx
  rw [List.mem_flatMap] at hx
  obtain ⟨a, ha, hx2⟩ := hx
  cases hf : bs.filter (fun b => decide (kb b = ka a)) with
  | nil =>
    rw [hf] at hx2
    simp only [List.mem_singleton] at hx2
    subst hx2
    refine ⟨ha, ?_⟩
    intro b hb
    simp at hb
  | cons m ms =>
    rw [hf] at hx2
    rw [List.mem_map] at hx2
    obtain ⟨b, hb, rfl⟩ := hx2
    refine ⟨ha, ?_⟩
    intro b2 hb2
    simp only [Option.some.injEq] at hb2
    subst hb2
    have hbf : b ∈ bs.filter (fun b3 => decide (kb b3 = ka a)) := by rw [hf]; exact hb
    rw [List.mem_filter] at hbf
    exact ⟨hbf.1, by simpa using hbf.2⟩

/-! ### Key uniqueness of the aggregates -/

theorem map_key_map_mk {κ β : Type} (mk : κ → β) (key : β → κ) (l : List κ)
    (h : ∀ a, key (mk a) = a) : (l.map mk).map key = l := by
  rw [List.map_map]
  exact (List.map_congr_left (fun a _ => h a)).trans (List.map_id l)

theorem payments_agg_keys_nodup (payments : List PaymentRow) :
    ((payments_agg payments).map (fun r => r.order_id)).Nodup := by
  unfold payments_agg
  rw [map_key_map_mk _ _ _ (fun a => rfl)]
  have h := dedupBy_keys_nodup id (payments.map (fun p => p.order_id))
  simpa using h

theorem reviews_agg_keys_nodup (reviews : List ReviewRow) :
    ((reviews_agg reviews).map (fun r => r.order_id)).Nodup := by
  unfold reviews_agg
  rw [map_key_map_mk _ _ _ (fun a => rfl)]
  have h := dedupBy_keys_nodup id (reviews.map (fun r => r.order_id))
  simpa using h

/-- find? over a mapped list of records built from distinct keys: looking
up a present key returns the record built from it. -/
theorem find?_map_mk {κ β : Type} [DecidableEq κ] (mk : κ → β) (key : β → κ)
    (l : List κ) (a : κ) (hk : ∀ x, key (mk x) = x) (ha : a ∈ l) :
    (l.map mk).find? (fun r => decide (key r = a)) = some (mk a) := by
  induction l with
  | nil => simp at ha
  | cons b l ih =>
    rw [List.map_cons, List.find?_cons]
    by_cases hb : b = a
    · subst hb
      have hd : decide (key (mk b) = b) = true := by simp [hk]
      simp only [hd]
    · have hd : decide (key (mk b) = a) = false := by
        simp only [hk, decide_eq_false_iff_not]
        exact hb
      simp only [hd]
      refine ih ?_
      rcases List.mem_cons.mp ha with rfl | h2
      · exact absurd rfl hb
      · exact h2

/-- Every key of the payment aggregate is an order_id of some payment row. -/
theorem payments_agg_key_sub (payments : List PaymentRow) (pa : PayAggRow)
    (hpa : pa ∈ payments_agg payments) :
    pa.order_id ∈ payments.map (fun p => p.order_id) := by
  unfold payments_agg at hpa
  obtain ⟨oid, hoid, rfl⟩ := List.mem_map.mp hpa
  show oid ∈ _
  exact dedupBy_subset id _ oid hoid

/-! ## Claim theorems -/

/-- Claim C7: column-name canonicalization (lower-case, trim, replace
spaces with underscores) is idempotent: applying clean_column_names twice
yields exactly the same column names as applying it once. -/
theorem clean_column_names_idempotent (cols : List (List Nat)) :
    clean_column_names (clean_column_names cols) = clean_column_names cols := by
  unfold clean_column_names
  rw [List.map_map]
  exact List.map_congr_left (fun s _ => cleanName_idem s)

/-- Claim C2: the fact table produced by the Fact Assembler has exactly as
many rows as the inner join of orders to customers on customer_id and then
to order_items on order_id; the left joins of the per-order payment and
review aggregates neither add nor drop rows. -/
theorem fact_rowcount_eq_base (orders : List OrderRow) (customers : List CustomerRow)
    (order_items : List OrderItemRow) (payments : List PaymentRow)
    (reviews : List ReviewRow) :
    (fact_order_items orders customers order_items payments reviews).length
      = (factBase orders customers order_items).length := by
  simp only [fact_order_items]
  rw [List.length_map,
    leftMerge_length_of_nodup _ _ _ _ (reviews_agg_keys_nodup reviews),
    leftMerge_length_of_nodup _ _ _ _ (payments_agg_keys_nodup payments)]

/-- Claim C5 is violated by the code: in the orchestrator's per-table load
order, the dimension table dim_orders comes after the fact table
fact_order_items, so not every dimension table is loaded before the fact
table (the code's own comment promises dims before facts). -/
theorem fact_loaded_before_dim_orders :
    tables_to_load.indexOf "fact_order_items" < tables_to_load.indexOf "dim_orders" ∧
    "dim_orders" ∈ tables_to_load ∧ "fact_order_items" ∈ tables_to_load := by
  decide

/-- Claim C6 is violated by the code: the configuration guard of
run_analysis tests `all` over the literal empty `credentials` dict, which
is True, so the run never halts before the connection attempt — even when
every required configuration value is missing (and etl.py performs no
check at all before connecting). -/
theorem config_check_never_halts (cfg : DbConfig) :
    run_analysis_config_check cfg = AnalysisOutcome.attemptsConnection := rfl

/-- Claim C8: after every per-table load attempt the local staged artifact
is absent, whatever the outcome of serialization, upload, truncate, copy
and commit; and any step failure yields a rolled-back transaction and a
per-table failure result (the loader returns False instead of raising). -/
theorem load_cleanup_and_rollback (env : LoadEnv) :
    (load_to_db env).localFileRemains = false ∧
    ((env.toCsvStep = StepResult.err ∨ env.uploadStep = StepResult.err ∨
      env.truncateStep = StepResult.err ∨ env.copyStep = StepResult.err ∨
      env.commitStep = StepResult.err) →
      (load_to_db env).success = false ∧ (load_to_db env).tx = TxOutcome.rolledBack) := by
  rcases env with ⟨s1, s2, s3, s4, s5⟩
  cases s1 <;> cases s2 <;> cases s3 <;> cases s4 <;> cases s5 <;> decide

/-- Witness for load_cleanup_and_rollback at a concrete run whose COPY
step fails: the artifact is cleaned up, the transaction rolled back, and
the loader reports failure. -/
theorem load_cleanup_and_rollback_witness :
    (load_to_db ⟨StepResult.ok, StepResult.ok, StepResult.ok, StepResult.err,
        StepResult.ok⟩).localFileRemains = false ∧
    (load_to_db ⟨StepResult.ok, StepResult.ok, StepResult.ok, StepResult.err,
        StepResult.ok⟩).success = false ∧
    (load_to_db ⟨StepResult.ok, StepResult.ok, StepResult.ok, StepResult.err,
        StepResult.ok⟩).tx = TxOutcome.rolledBack :=
  ⟨(load_cleanup_and_rollback ⟨StepResult.ok, StepResult.ok, StepResult.ok,
      StepResult.err, StepResult.ok⟩).1,
   (load_cleanup_and_rollback ⟨StepResult.ok, StepResult.ok, StepResult.ok,
      StepResult.err, StepResult.ok⟩).2
     (Or.inr (Or.inr (Or.inr (Or.inl rfl))))⟩

/-- Claim C1 is false as stated for dim_customers: a customers extract in
which the same customer_unique_id appears with two different attribute
sets keeps both rows — the source deduplicates by the whole projected
row, not by the key — so the key column of the built dimension contains a
duplicate value. -/
theorem dim_customers_dup_key_cex :
    ¬ (((dim_customers exCustomersDup).map (fun r => r.customer_unique_id)).Nodup) := by
  decide

/-- Claim C1 as amended: dim_products, dim_geolocation and dim_orders
deduplicate by their declared key — afterwards the key column is unique
and the first-seen row for each key is the one retained — while
dim_customers and dim_sellers deduplicate by the whole projected row
(first occurrence kept), so their key columns may retain duplicates when
the same key recurs with differing attributes. -/
theorem dims_dedup_amended :
    (∀ products : List ProductRow,
      ((dim_products products).map (fun r => r.product_id)).Nodup ∧
      ∀ r ∈ dim_products products,
        ((products.map projProduct).find?
          (fun y => decide (y.product_id = r.product_id))).map fillProduct = some r) ∧
    (∀ geo : List GeoRow,
      ((dim_geolocation geo).map (fun r => r.geolocation_zip_code_pfx)).Nodup ∧
      ∀ r ∈ dim_geolocation geo,
        (geo.map projGeo).find?
          (fun y => decide (y.geolocation_zip_code_pfx = r.geolocation_zip_code_pfx))
          = some r) ∧
    (∀ orders : List OrderRow,
      ((dim_orders orders).map (fun r => r.order_id)).Nodup ∧
      ∀ r ∈ dim_orders orders,
        orders.find? (fun y => decide (y.order_id = r.order_id)) = some r) ∧
    (∀ customers : List CustomerRow,
      (dim_customers customers).Nodup ∧
      ∀ r ∈ dim_customers customers,
        (customers.map projCustomer).find? (fun y => decide (y = r)) = some r) ∧
    (∀ sellers : List SellerRow,
      (dim_sellers sellers).Nodup ∧
      ∀ r ∈ dim_sellers sellers,
        sellers.find? (fun y => decide (y = r)) = some r) := by
  refine ⟨fun products => ⟨?_, ?_⟩, fun geo => ⟨?_, ?_⟩, fun orders => ⟨?_, ?_⟩,
    fun customers => ⟨?_, ?_⟩, fun sellers => ⟨?_, ?_⟩⟩
  · unfold dim_products
    rw [List.map_map]
    exact dedupBy_keys_nodup (fun r : DimProductRowPre => r.product_id)
      (products.map projProduct)
  · intro r hr
    unfold dim_products at hr
    obtain ⟨x, hx, rfl⟩ := List.mem_map.mp hr
    have h1 := dedupBy_first_seen (fun y : DimProductRowPre => y.product_id)
      (products.map projProduct) x hx
    show ((products.map projProduct).find?
      (fun y => decide (y.product_id = x.product_id))).map fillProduct = some (fillProduct x)
    rw [h1]
    rfl
  · unfold dim_geolocation
    exact dedupBy_keys_nodup _ _
  · intro r hr
    unfold dim_geolocation at hr
    exact dedupBy_first_seen _ _ r hr
  · unfold dim_orders
    exact dedupBy_keys_nodup _ _
  · intro r hr
    unfold dim_orders at hr
    exact dedupBy_first_seen _ _ r hr
  · unfold dim_customers
    have h := dedupBy_keys_nodup id (customers.map projCustomer)
    simpa using h
  · intro r hr
    unfold dim_customers at hr
    exact dedupBy_first_seen id _ r hr
  · unfold dim_sellers
    have h := dedupBy_keys_nodup id sellers
    simpa using h
  · intro r hr
    unfold dim_sellers at hr
    exact dedupBy_first_seen id _ r hr

/-- Witness for dims_dedup_amended on a concrete orders extract with a
duplicated order_id: the built dim_orders has unique keys and retained
the first-seen row for the duplicated key. -/
theorem dims_dedup_amended_witness :
    ((dim_orders exOrdersDup).map (fun r => r.order_id)).Nodup ∧
    exOrdersDup.find? (fun y => decide (y.order_id =
        (⟨"o1", "c1", "delivered", none, none, none, none, none⟩ : OrderRow).order_id))
      = some ⟨"o1", "c1", "delivered", none, none, none, none, none⟩ :=
  ⟨(dims_dedup_amended.2.2.1 exOrdersDup).1,
   (dims_dedup_amended.2.2.1 exOrdersDup).2
     ⟨"o1", "c1", "delivered", none, none, none, none, none⟩ (by decide)⟩

/-- Claim C3 is false as stated: for an order whose two payment rows tie
in frequency between payment types "voucher" (encountered first) and
"credit_card", the aggregation yields "credit_card" — pandas mode sorts
the tied candidates and [0] takes the least in string order — not the
first-encountered "voucher" that the claim's tie-break requires. -/
theorem payments_mode_tiebreak_cex :
    ((payments_agg exPayTie).find? (fun r => decide (r.order_id = "o1"))).map
        (fun r => r.payment_type) = some (some "credit_card") ∧
    modeFirstEncountered
        ((exPayTie.filter (fun p => decide (p.order_id = "o1"))).map
          (fun p => p.payment_type)) = some "voucher" := by
  decide

/-- Claim C3 as amended: for every order with at least one payment row,
the payment aggregate row for that order has payment_value equal to the
sum of the order's payment_value entries and payment_installments equal
to their maximum; payment_type is the mode of the order's payment_type
values with a tie among the most frequent broken by taking the least
value in string sort order (pandas mode returns the tied candidates
sorted ascending), not the value first encountered in input order. -/
theorem payments_agg_per_order (payments : List PaymentRow) (oid : String)
    (h : oid ∈ payments.map (fun p => p.order_id)) :
    (payments_agg payments).find? (fun r => decide (r.order_id = oid)) =
      some ⟨oid,
        ((payments.filter (fun p => decide (p.order_id = oid))).map
          (fun p => p.payment_value)).sum,
        ((payments.filter (fun p => decide (p.order_id = oid))).map
          (fun p => p.payment_installments)).foldr max 0,
        seriesModeHead ((payments.filter (fun p => decide (p.order_id = oid))).map
          (fun p => p.payment_type))⟩ := by
  unfold payments_agg
  exact find?_map_mk _ _ _ oid (fun x => rfl) (mem_dedupBy_id _ oid h)

/-- Witness for payments_agg_per_order at a concrete two-payment order. -/
theorem payments_agg_per_order_witness :
    (payments_agg exPayTie).find? (fun r => decide (r.order_id = "o1")) =
      some ⟨"o1",
        ((exPayTie.filter (fun p => decide (p.order_id = "o1"))).map
          (fun p => p.payment_value)).sum,
        ((exPayTie.filter (fun p => decide (p.order_id = "o1"))).map
          (fun p => p.payment_installments)).foldr max 0,
        seriesModeHead ((exPayTie.filter (fun p => decide (p.order_id = "o1"))).map
          (fun p => p.payment_type))⟩ :=
  payments_agg_per_order exPayTie "o1" (by decide)

/-- Claim C4 is false as stated: with a translation extract that lists
the same category name twice, the left merge duplicates the matching
product row, so the translator's output has more rows than the products
extract. -/
theorem translate_rowcount_cex :
    (translateCategories exProductsOne exTransDup true).length ≠ exProductsOne.length := by
  decide

/-- Claim C4 as amended: provided the translation extract has at most one
row per category name (the spec assumes the translation table is
unique-keyed), the Category Translator emits exactly one output row per
product row — the row count is unchanged — and each product's output
category is the English translation when its category has one, and the
original category value otherwise. -/
theorem translate_categories_unique (products : List ProductRow) (translation : List TransRow)
    (h : (translation.map (fun t => t.product_category_name)).Nodup) :
    (translateCategories products translation true).length = products.length ∧
    translateCategories products translation true =
      products.map (fun p =>
        ⟨p.product_id,
         match (translation.find? (fun t =>
             decide (t.product_category_name = p.product_category_name))).bind
             (fun t => t.product_category_name_english) with
         | some e => some e
         | none => p.product_category_name,
         p.product_name_lenght, p.product_description_lenght, p.product_photos_qty,
         p.product_weight_g, p.product_length_cm, p.product_height_cm,
         p.product_width_cm⟩) := by
  have key : translateCategories products translation true =
      (leftMerge (fun p : ProductRow => p.product_category_name)
        (fun t : TransRow => t.product_category_name) products translation).map
        (fun pt =>
          ⟨pt.1.product_id,
           match pt.2.bind (fun t => t.product_category_name_english) with
           | some e => some e
           | none => pt.1.product_category_name,
           pt.1.product_name_lenght, pt.1.product_description_lenght, pt.1.product_photos_qty,
           pt.1.product_weight_g, pt.1.product_length_cm, pt.1.product_height_cm,
           pt.1.product_width_cm⟩) := rfl
  have hm := leftMerge_eq_map_of_nodup (fun p : ProductRow => p.product_category_name)
    (fun t : TransRow => t.product_category_name) products translation h
  constructor
  · rw [key, hm, List.length_map, List.length_map]
  · rw [key, hm, List.map_map]
    rfl

/-- Witness for translate_categories_unique on a two-product extract: one
category has a translation, the other does not. -/
theorem translate_categories_unique_witness :
    (translateCategories exProductsTwo exTransOne true).length = exProductsTwo.length ∧
    translateCategories exProductsTwo exTransOne true =
      exProductsTwo.map (fun p =>
        ⟨p.product_id,
         match (exTransOne.find? (fun t =>
             decide (t.product_category_name = p.product_category_name))).bind
             (fun t => t.product_category_name_english) with
         | some e => some e
         | none => p.product_category_name,
         p.product_name_lenght, p.product_description_lenght, p.product_photos_qty,
         p.product_weight_g, p.product_length_cm, p.product_height_cm,
         p.product_width_cm⟩) :=
  translate_categories_unique exProductsTwo exTransOne (by decide)

/-- Claim C10: when the merged frame has no product_category_name_english
column (the translation file does not provide it), the translator
performs no category replacement and raises no error: every output row
is one of the input product rows, fully unchanged, and when the
translation table is unique-keyed the output equals the products extract
exactly. -/
theorem translate_no_english_col (products : List ProductRow) (translation : List TransRow) :
    (∀ r ∈ translateCategories products translation false, r ∈ products) ∧
    ((translation.map (fun t => t.product_category_name)).Nodup →
      translateCategories products translation false = products) := by
  have key : translateCategories products translation false =
      (leftMerge (fun p : ProductRow => p.product_category_name)
        (fun t : TransRow => t.product_category_name) products translation).map
        (fun pt => pt.1) := rfl
  constructor
  · intro r hr
    rw [key] at hr
    obtain ⟨x, hx, rfl⟩ := List.mem_map.mp hr
    exact (mem_leftMerge hx).1
  · intro h
    rw [key, leftMerge_eq_map_of_nodup _ _ _ _ h, List.map_map]
    exact List.map_id products

/-- Witness for translate_no_english_col: without the English column the
translator returns the products extract unchanged. -/
theorem translate_no_english_col_witness :
    translateCategories exProductsTwo exTransOne false = exProductsTwo :=
  (translate_no_english_col exProductsTwo exTransOne).2 (by decide)

/-- Claim C9: a fact row whose order has no payment rows gets
payment_value filled to 0 and payment_installments filled to 0, while
payment_type is left as the missing marker — the only payment-derived
column whose missing aggregate is not resolved to a concrete value. -/
theorem fact_missing_payment_fills (orders : List OrderRow) (customers : List CustomerRow)
    (order_items : List OrderItemRow) (payments : List PaymentRow) (reviews : List ReviewRow)
    (r : FactRow) (hr : r ∈ fact_order_items orders customers order_items payments reviews)
    (h : r.order_id ∉ payments.map (fun p => p.order_id)) :
    r.payment_value = 0 ∧ r.payment_installments = 0 ∧ r.payment_type = none := by
  simp only [fact_order_items] at hr
  obtain ⟨x, hx, rfl⟩ := List.mem_map.mp hr
  have h2 := mem_leftMerge hx
  have h3 := mem_leftMerge h2.1
  rcases hpay : x.1.2 with _ | pa
  · refine ⟨?_, ?_, ?_⟩ <;> simp [projectFact, hpay]
  · exfalso
    have h4 := h3.2 pa hpay
    apply h
    have h5 := payments_agg_key_sub payments pa h4.1
    rw [h4.2] at h5
    exact h5

/-- Witness for fact_missing_payment_fills: a one-order, one-item run
with no payment rows at all yields the 0/0/missing fill pattern. -/
theorem fact_missing_payment_fills_witness :
    (⟨"o1", 1, "p1", "s1", "u1", some "t1", 10, 2, 0, 0, none, 0⟩ : FactRow).payment_value = 0 ∧
    (⟨"o1", 1, "p1", "s1", "u1", some "t1", 10, 2, 0, 0, none, 0⟩ : FactRow).payment_installments
      = 0 ∧
    (⟨"o1", 1, "p1", "s1", "u1", some "t1", 10, 2, 0, 0, none, 0⟩ : FactRow).payment_type
      = none :=
  fact_missing_payment_fills exOrdersW exCustomersW exItemsW [] []
    ⟨"o1", 1, "p1", "s1", "u1", some "t1", 10, 2, 0, 0, none, 0⟩ (by decide) (by decide)

end ETL
